import Mathlib

/-!
Verification of the legacy-scrobbler media-database decoder against its
specification.  The JavaScript source is shallowly embedded: byte buffers and
files become `List Nat` (one entry per byte), 32-bit little-endian reads become
`readU32` (`Option`-valued: a read past the end of the available bytes models
the `RangeError` thrown by `Buffer.readUInt32LE` on a short slice, which each
JS function catches at its own level), and the ambient local-timezone offset
`new Date().getTimezoneOffset() * 60` is threaded through as an explicit
integer parameter `tz`.  JS objects with optional numeric fields are modeled
with total fields, an absent numeric field reading as `0` (both are falsy, and
every guard in the source treats them identically).  The zlib `inflateRaw`
primitive is external to the repository and is abstracted as a function
parameter `inflate : List Nat -> Option (List Nat)` (`none` models an inflate
exception).  Node's text decoders `Buffer.toString 'utf16le'` and `'utf8'` are
modeled by executable functions `utf16leDecode` / `utf8Decode`.
-/

/-- A decoded track record (the JS object literal built by the parsers).
`track` is the title field, named as in the source.  `id` is the join key the
spec calls `sequenceId`. -/
structure Track where
  track : String
  artist : String
  album : String
  playCount : Nat
  lastPlayed : Int
  id : Nat
  length : Nat
deriving DecidableEq, Repr, Inhabited

/-- Little-endian 32-bit read from a byte list; `none` when fewer than 4 bytes
remain (modeling the exception thrown by `readUInt32LE` on a short slice). -/
def readU32 (file : List Nat) (pos : Nat) : Option Nat :=
  if pos + 4 ≤ file.length then
    some (file.getD pos 0 + 256 * file.getD (pos + 1) 0 +
      65536 * file.getD (pos + 2) 0 + 16777216 * file.getD (pos + 3) 0)
  else none

/-- Little-endian 32-bit read into a freshly zero-filled 4-byte buffer:
missing trailing bytes read as `0` (Node `Buffer.alloc` zero-fills, and
`handler.read` leaves unfilled bytes untouched). -/
def readU32P (file : List Nat) (pos : Nat) : Nat :=
  file.getD pos 0 + 256 * file.getD (pos + 1) 0 +
    65536 * file.getD (pos + 2) 0 + 16777216 * file.getD (pos + 3) 0

/-- The 4 bytes at `pos`, decoded as Node's legacy `ascii` encoding (each byte
masked to 7 bits).  A range reaching past the end yields fewer than 4 entries,
which can never equal a 4-character tag, matching `buffer.toString` returning
a short string. -/
def tagAt (buf : List Nat) (pos : Nat) : List Nat :=
  ((buf.drop pos).take 4).map (· % 128)

def mhbdTag : List Nat := [109, 104, 98, 100]
def mhsdTag : List Nat := [109, 104, 115, 100]
def mhltTag : List Nat := [109, 104, 108, 116]
def mhitTag : List Nat := [109, 104, 105, 116]
def mhodTag : List Nat := [109, 104, 111, 100]

/-- The HFS-to-Unix timestamp conversion as performed in
`parseTrackFromBuffer` (src/unnamed/part_000:208-214): only a strictly
positive raw value is shifted by the 1904/1970 epoch delta and the local
timezone offset; a raw `0` is kept as the `0` sentinel. -/
def hfsToUnix (tz : Int) (x : Nat) : Int :=
  if 0 < x then (x : Int) - 2082844800 + tz else 0

/-- The HFS-to-Unix conversion as performed inline in `parsePlayCounts`
(src/unnamed/part_000:470-476): the epoch delta and timezone offset are
applied unconditionally, with no zero-sentinel guard. -/
def pcConvert (tz : Int) (x : Nat) : Int :=
  (x : Int) - 2082844800 + tz

/- ### Play-event expander (src/src/renderer/utils/lastfm.js:105-120) -/

/-- One track's expansion inside `expandTracksByPlayCount`: `plays` copies,
each with `playCount` forced to 1 and the i-th-from-most-recent timestamp
pushed back by `i` whole track lengths in seconds. -/
def expandTrack (t : Track) : List Track :=
  let plays := if t.playCount = 0 then 1 else t.playCount
  let trackLength := (if t.length = 0 then 180000 else t.length) / 1000
  (List.range plays).map fun (i : Nat) =>
    { t with playCount := 1, lastPlayed := t.lastPlayed - (i : Int) * (trackLength : Int) }

/-- `expandTracksByPlayCount` from lastfm.js: concatenation of each track's
expansion, in input order. -/
def expandTracksByPlayCount (tl : List Track) : List Track :=
  tl.flatMap expandTrack

/- ### Text decoding (models of Node's Buffer.toString encodings) -/

/-- Pair up bytes little-endian into UTF-16 code units; a trailing odd byte is
dropped, as Node does for `utf16le`. -/
def utf16Units : List Nat → List Nat
  | b0 :: b1 :: rest => (b0 + 256 * b1) :: utf16Units rest
  | _ => []

/-- Combine UTF-16 code units into characters: surrogate pairs form one
supplementary character, lone surrogates become U+FFFD. -/
def combineUnits : List Nat → List Char
  | [] => []
  | [u] =>
    if (0xD800 ≤ u ∧ u < 0xE000) ∨ ¬ Nat.isValidChar u then [Char.ofNat 0xFFFD]
    else [Char.ofNat u]
  | u :: u2 :: rest =>
    if 0xD800 ≤ u ∧ u < 0xDC00 then
      if 0xDC00 ≤ u2 ∧ u2 < 0xE000 then
        Char.ofNat (0x10000 + (u - 0xD800) * 0x400 + (u2 - 0xDC00)) :: combineUnits rest
      else Char.ofNat 0xFFFD :: combineUnits (u2 :: rest)
    else if 0xDC00 ≤ u ∧ u < 0xE000 then Char.ofNat 0xFFFD :: combineUnits (u2 :: rest)
    else if Nat.isValidChar u then Char.ofNat u :: combineUnits (u2 :: rest)
    else Char.ofNat 0xFFFD :: combineUnits (u2 :: rest)

/-- Model of `buffer.toString('utf16le')`. -/
def utf16leDecode (bytes : List Nat) : String :=
  ⟨combineUnits (utf16Units bytes)⟩

/-- Is `b` a UTF-8 continuation byte? -/
def isCont (b : Nat) : Bool := 0x80 ≤ b ∧ b < 0xC0

/-- Model of UTF-8 decoding as done by `buffer.toString('utf8')`: well-formed
1-4 byte sequences decode to their scalar value, anything malformed becomes a
U+FFFD replacement character. -/
def utf8Chars : List Nat → List Char
  | [] => []
  | b :: rest =>
    if b < 0x80 then Char.ofNat b :: utf8Chars rest
    else if 0xC0 ≤ b ∧ b < 0xE0 then
      match rest with
      | b2 :: rest2 =>
        if isCont b2 then
          let v := (b - 0xC0) * 64 + (b2 - 0x80)
          (if Nat.isValidChar v then Char.ofNat v else Char.ofNat 0xFFFD) :: utf8Chars rest2
        else Char.ofNat 0xFFFD :: utf8Chars (b2 :: rest2)
      | [] => [Char.ofNat 0xFFFD]
    else if 0xE0 ≤ b ∧ b < 0xF0 then
      match rest with
      | b2 :: b3 :: rest3 =>
        if isCont b2 ∧ isCont b3 then
          let v := (b - 0xE0) * 4096 + (b2 - 0x80) * 64 + (b3 - 0x80)
          (if Nat.isValidChar v then Char.ofNat v else Char.ofNat 0xFFFD) :: utf8Chars rest3
        else Char.ofNat 0xFFFD :: utf8Chars (b2 :: b3 :: rest3)
      | _ => [Char.ofNat 0xFFFD]
    else if 0xF0 ≤ b ∧ b < 0xF8 then
      match rest with
      | b2 :: b3 :: b4 :: rest4 =>
        if isCont b2 ∧ isCont b3 ∧ isCont b4 then
          let v := (b - 0xF0) * 262144 + (b2 - 0x80) * 4096 + (b3 - 0x80) * 64 + (b4 - 0x80)
          (if Nat.isValidChar v then Char.ofNat v else Char.ofNat 0xFFFD) :: utf8Chars rest4
        else Char.ofNat 0xFFFD :: utf8Chars (b2 :: b3 :: b4 :: rest4)
      | _ => [Char.ofNat 0xFFFD]
    else Char.ofNat 0xFFFD :: utf8Chars rest

/-- Model of `buffer.toString('utf8')`. -/
def utf8Decode (bytes : List Nat) : String :=
  ⟨utf8Chars bytes⟩

/-- `str.replace(/\0/g, '')`: drop every NUL code point after decoding. -/
def stripNulls (s : String) : String :=
  ⟨s.data.filter fun c => c ≠ Char.ofNat 0⟩

/-- Store a decoded string into the track field selected by the mhod object
type: 1 = title, 3 = album, 4 = artist, anything else is ignored (the JS
`switch` in both mhod parsers). -/
def setField (t : Track) (ty : Nat) (s : String) : Track :=
  if ty = 1 then { t with track := s }
  else if ty = 3 then { t with album := s }
  else if ty = 4 then { t with artist := s }
  else t

/- ### Structured decoder for the decompressed database
(src/unnamed/part_000:98-303, the compressed code path) -/

/-- `parseMhodFromBuffer`: decode one metadata object at `mhodStart`, storing
an accepted string into `t`.  Returns the number of bytes to advance by and
the (possibly updated) track.  A wrong tag, or a read past the end of the
buffer before the total size is known, advances by 4 (the JS `catch` paths);
every other exit advances by the object's declared total size. -/
def parseMhodFromBuffer (buf : List Nat) (mhodStart : Nat) (t : Track) : Nat × Track :=
  if tagAt buf mhodStart ≠ mhodTag then (4, t)
  else
    match readU32 buf (mhodStart + 4), readU32 buf (mhodStart + 8),
        readU32 buf (mhodStart + 12) with
    | some mhodHeaderSize, some mhodTotalSize, some mhodType =>
      let pos := mhodStart + mhodHeaderSize
      if pos + 16 > buf.length then (mhodTotalSize, t)
      else
        match readU32 buf pos, readU32 buf (pos + 4) with
        | some encodingCode, some strLen =>
          if 0 < strLen ∧ strLen < 10000 ∧ pos + 16 + strLen ≤ buf.length then
            let payload := ((buf.drop (pos + 16)).take strLen)
            let s := stripNulls
              (if encodingCode = 1 then utf16leDecode payload else utf8Decode payload)
            (mhodTotalSize, setField t mhodType s)
          else (mhodTotalSize, t)
        | _, _ => (4, t)
    | _, _, _ => (4, t)

/-- The mhod loop inside `parseTrackFromBuffer`: at most `numMhods` objects,
stopping once the position reaches the end of the mhit item. -/
def mhodLoop (buf : List Nat) (mhitEnd : Nat) : Nat → Nat → Track → Track
  | 0, _, t => t
  | n + 1, mhodPos, t =>
    if mhodPos < mhitEnd then
      let r := parseMhodFromBuffer buf mhodPos t
      mhodLoop buf mhitEnd n (mhodPos + r.1) r.2
    else t

/-- `parseTrackFromBuffer`: decode one mhit item at `trackStart` in the
decompressed buffer.  The embedded track identifier at offset +16 is read and
discarded; the record's `id` is the caller's loop index `sequenceIndex`.
`none` models the JS function returning `null` (wrong tag, or a read past the
buffer end throwing into the local `catch`). -/
def parseTrackFromBuffer (buf : List Nat) (tz : Int) (trackStart sequenceIndex : Nat) :
    Option Track :=
  if tagAt buf trackStart ≠ mhitTag then none
  else
    match readU32 buf (trackStart + 4), readU32 buf (trackStart + 8),
        readU32 buf (trackStart + 12), readU32 buf (trackStart + 16),
        readU32 buf (trackStart + 40), readU32 buf (trackStart + 0x50),
        readU32 buf (trackStart + 0x58) with
    | some mhitHeaderSize, some mhitTotalSize, some numMhods, some _trackId,
        some trackLength, some playCount, some lastPlayedRaw =>
      some (mhodLoop buf (trackStart + mhitTotalSize) numMhods
        (trackStart + mhitHeaderSize)
        { track := "", artist := "", album := "", playCount := playCount,
          lastPlayed := hfsToUnix tz lastPlayedRaw, id := sequenceIndex,
          length := trackLength })
    | _, _, _, _, _, _, _ => none

/-- The track loop inside `parseTrackList`: up to `numTracks` items while the
position stays inside the buffer; a parsed track is kept only when its title
is truthy; iteration advances by each item's declared total size, and a failed
size read ends the loop with the tracks collected so far (the JS `catch`). -/
def trackListLoop (buf : List Nat) (tz : Int) : Nat → Nat → Nat → List Track → List Track
  | 0, _, _, acc => acc
  | n + 1, i, pos, acc =>
    if pos < buf.length then
      let acc' :=
        match parseTrackFromBuffer buf tz pos i with
        | some t => if t.track ≠ "" then acc ++ [t] else acc
        | none => acc
      match readU32 buf (pos + 8) with
      | some mhitTotalSize => trackListLoop buf tz n (i + 1) (pos + mhitTotalSize) acc'
      | none => acc'
    else acc

/-- `parseTrackList`: check the mhlt tag, read its header size and declared
track count, then iterate the track items. -/
def parseTrackList (buf : List Nat) (tz : Int) (startPos : Nat) : List Track :=
  if tagAt buf startPos ≠ mhltTag then []
  else
    match readU32 buf (startPos + 4), readU32 buf (startPos + 8) with
    | some mhltHeaderSize, some numTracks =>
      trackListLoop buf tz numTracks 0 (startPos + mhltHeaderSize) []
    | _, _ => []

/-- The mhsd scan of `parseDecompressedDatabase`: at each position check for
an mhsd tag; dataset type 1 hands over to `parseTrackList` (and stops), other
datasets are skipped by their total size, any other byte advances the scan by
one.  The fuel argument makes the JS `while` loop (which diverges on a zero
total size) a total function; `parseDecompressedDatabase` supplies enough fuel
for every terminating run. -/
def scanMhsd (buf : List Nat) (tz : Int) : Nat → Nat → List Track
  | 0, _ => []
  | fuel + 1, pos =>
    if pos < buf.length - 8 then
      if tagAt buf pos = mhsdTag then
        match readU32 buf (pos + 4), readU32 buf (pos + 8), readU32 buf (pos + 12) with
        | some mhsdHeaderSize, some mhsdTotalSize, some datasetType =>
          if datasetType = 1 then parseTrackList buf tz (pos + mhsdHeaderSize)
          else scanMhsd buf tz fuel (pos + mhsdTotalSize)
        | _, _, _ => []
      else scanMhsd buf tz fuel (pos + 1)
    else []

/-- `parseDecompressedDatabase`: scan the whole inflated buffer for the
track-list dataset. -/
def parseDecompressedDatabase (buf : List Nat) (tz : Int) : List Track :=
  scanMhsd buf tz (buf.length + 1) 0

/- ### Compressed container unwrapper (src/unnamed/part_000:59-96) -/

/-- The only error the compressed path can raise internally: the rethrown
`inflateRaw` failure. -/
inductive DbError where
  | decompressionError
deriving DecidableEq, Repr

/-- The deflate payload handed to `inflateRaw`: bytes from the mhbd header
size onward, capped at 50 MB, with the first two (zlib wrapper) bytes
skipped. -/
def deflateSlice (file : List Nat) : List Nat :=
  let mhbdHeaderSize := readU32P file 4
  let bytesRead := min (50 * 1024 * 1024) (file.length - mhbdHeaderSize)
  ((file.drop mhbdHeaderSize).take bytesRead).drop 2

/-- The `try` block of `parseCompressedItunesDb`: a wrong leading tag is a
plain `return tracklist` (yielding `ok []`, not an error); only an inflate
failure raises, and that error is what would propagate to the enclosing
`catch`. -/
def parseCompressedCore (inflate : List Nat → Option (List Nat)) (file : List Nat)
    (tz : Int) : Except DbError (List Track) :=
  if ((List.range 4).map fun k => file.getD k 0 % 128) ≠ mhbdTag then Except.ok []
  else
    match inflate (deflateSlice file) with
    | none => Except.error DbError.decompressionError
    | some decompressed => Except.ok (parseDecompressedDatabase decompressed tz)

/-- `parseCompressedItunesDb` as the caller sees it: the enclosing
`catch` logs any raised error and returns the (still empty) track list. -/
def parseCompressedItunesDb (inflate : List Nat → Option (List Nat)) (file : List Nat)
    (tz : Int) : List Track :=
  match parseCompressedCore inflate file tz with
  | Except.ok tl => tl
  | Except.error _ => []

/- ### Streaming decoder for the uncompressed database
(src/unnamed/part_000:32-57, 305-414) -/

/-- `n` bytes read at `pos` into a freshly zero-filled buffer: bytes past the
end of the file stay zero. -/
def readBytesPadded (file : List Nat) (pos n : Nat) : List Nat :=
  (file.drop pos).take n ++ List.replicate (n - ((file.drop pos).take n).length) 0

/-- `parsemhod`: decode one metadata object of the uncompressed path.  Field
offsets are taken relative to `startOffset + headerSize - 4`, the position of
the object's tag.  Note the divergences from the compressed-path parser: the
encoding-code field is never read and the payload is always decoded as
UTF-16LE, and no NUL stripping is performed.  `none` models a dword read past
the end of the file (outside the in-bounds regime every theorem assumes). -/
def parsemhod (file : List Nat) (startOffset headerSize : Nat) (t : Track) :
    Option (Nat × Track) :=
  match readU32 file (startOffset + headerSize - 4 + 8),
      readU32 file (startOffset + headerSize - 4 + 12) with
  | some totalSizeValue, some mhodTypeValue =>
    if mhodTypeValue = 1 ∨ mhodTypeValue = 3 ∨ mhodTypeValue = 4 then
      match readU32 file (startOffset + headerSize - 4 + 28) with
      | some stringLengthValue =>
        if 0 < stringLengthValue ∧ stringLengthValue < 10000 then
          some (totalSizeValue, setField t mhodTypeValue
            (utf16leDecode
              (readBytesPadded file (startOffset + headerSize - 4 + 40) stringLengthValue)))
        else some (totalSizeValue, t)
      | none => none
    else some (totalSizeValue, t)
  | _, _ => none

/-- The mhod loop of `parseMhit`: `mhodEntriesCount` iterations, each
advancing the anchor offset by the object's declared total size. -/
def mhitMhodLoop (file : List Nat) (headerSize : Nat) : Nat → Nat → Track → Option Track
  | 0, _, t => some t
  | n + 1, startOffset, t =>
    match parsemhod file startOffset headerSize t with
    | none => none
    | some r => mhitMhodLoop file headerSize n (startOffset + r.1) r.2

/-- `parseMhit`: decode one mhit item of the uncompressed path.  `startOffset`
is the position just after the 4-byte `mhit` tag, so the identifier read at
`startOffset + 12` sits at offset +16 from the item's start and the length at
+40 (0x28).  Play count and last-played are never read on this path.  The
record's `id` is the identifier embedded in the file. -/
def parseMhit (file : List Nat) (startOffset : Nat) : Option Track :=
  match readU32 file startOffset, readU32 file (startOffset + 8),
      readU32 file (startOffset + 12), readU32 file (startOffset + 36) with
  | some headerSize, some mhodEntriesCount, some trackId, some trackLength =>
    mhitMhodLoop file headerSize mhodEntriesCount startOffset
      { track := "", artist := "", album := "", playCount := 0, lastPlayed := 0,
        id := trackId, length := trackLength }
  | _, _, _, _ => none

/-- `searchMhitInBuffer` over one read window of `r` valid bytes starting at
absolute offset `base`: every byte `m` followed by `hit` within the window
anchors a `parseMhit` at the absolute offset just past the marker, and the
track is kept when its title is truthy. -/
def searchWindow (file : List Nat) (base r : Nat) (acc0 : List Track) : List Track :=
  (List.range (r - 4)).foldl
    (fun acc i =>
      if file.getD (base + i) 0 = 109 ∧ file.getD (base + i + 1) 0 = 104 ∧
          file.getD (base + i + 2) 0 = 105 ∧ file.getD (base + i + 3) 0 = 116 then
        match parseMhit file (base + i + 4) with
        | some t => if t.track ≠ "" then acc ++ [t] else acc
        | none => acc
      else acc)
    acc0

/-- The 1 MB read-window size of `parseUncompressedItunesDb`. -/
def WINDOW : Nat := 1048576

/-- `parseUncompressedItunesDb`: scan the file window by window (the final,
short window included), accumulating the tracks found by the marker scan.  A
marker straddling two windows is missed, exactly as in the source. -/
def parseUncompressedItunesDb (file : List Nat) : List Track :=
  (List.range (file.length / WINDOW + 1)).foldl
    (fun acc w => searchWindow file (w * WINDOW) (min WINDOW (file.length - w * WINDOW)) acc)
    []

/- ### Play Counts correlator (src/unnamed/part_000:416-499) -/

/-- Overwrite a matched track's play data (the two assignments at
src/unnamed/part_000:483-484). -/
def markPlayed (t : Track) (pc : Nat) (lp : Int) : Track :=
  { t with playCount := pc, lastPlayed := lp }

/-- `tracklist.findIndex(t => t.id === i)` followed by the in-place update:
the first track whose `id` equals `i` gets the entry's play data; when no
track matches, the list is unchanged (the entry is dropped). -/
def applyEntry (i pc : Nat) (lp : Int) : List Track → List Track
  | [] => []
  | t :: ts =>
    if t.id = i then markPlayed t pc lp :: ts
    else t :: applyEntry i pc lp ts

/-- The entry loop of `parsePlayCounts`, restricted to the in-bounds regime:
`k` remaining entries, current entry index `i`, current stride offset `off`.
Each entry reads its play count; a nonzero count additionally reads the raw
last-played stamp, converts it with `pcConvert`, and updates the matching
track; the offset always advances by the fixed stride.  A read past the end
of the file ends the loop here, which is only faithful while every read is
in bounds — the exact model, including the reused read buffer whose stale
bytes the source keeps consuming past end of file, is `pcLoopS` below, and
`pcLoopS_eq_pcLoop` proves the two agree on in-bounds files (the regime the
correlation theorem hypothesizes). -/
def pcLoop (file : List Nat) (tz : Int) (entryLen : Nat) :
    Nat → Nat → Nat → List Track → List Track
  | 0, _, _, tl => tl
  | k + 1, i, off, tl =>
    match readU32 file off with
    | none => tl
    | some playCount =>
      if 0 < playCount then
        match readU32 file (off + 4) with
        | none => tl
        | some lastPlayedRaw =>
          pcLoop file tz entryLen k (i + 1) (off + entryLen)
            (applyEntry i playCount (pcConvert tz lastPlayedRaw) tl)
      else pcLoop file tz entryLen k (i + 1) (off + entryLen) tl

/-- `parsePlayCounts` in the in-bounds regime: after 8 reserved bytes read
the per-entry stride and the entry count, skip 80 more bytes, then process
`numEntries - 1` entries starting at offset 96.  Theorems about this
function carry hypotheses putting the header and entry reads in bounds;
`parsePlayCountsS` below is the exact model without that restriction, and
the two agree on in-bounds files.  The correlated list is returned (the JS
mutates `tracklist` in place). -/
def parsePlayCounts (file : List Nat) (tz : Int) (tl : List Track) : List Track :=
  match readU32 file 8, readU32 file 12 with
  | some entryLen, some numEntries => pcLoop file tz entryLen (numEntries - 1) 0 96 tl
  | _, _ => tl

/-- The 32-bit little-endian value held by a 4-byte read buffer. -/
def u32Of (d : List Nat) : Nat :=
  d.getD 0 0 + 256 * d.getD 1 0 + 65536 * d.getD 2 0 + 16777216 * d.getD 3 0

/-- One `handler.read(dword, 0, 4, pos)` into the reused `dword` buffer of
`parsePlayCounts`: the bytes available at `pos` overwrite the front of the
buffer and the remaining bytes keep their stale contents (a read at or past
end of file overwrites nothing). -/
def readDword (file : List Nat) (pos : Nat) (dword : List Nat) : List Nat :=
  let got := (file.drop pos).take 4
  got ++ dword.drop got.length

/-- The exact entry loop of `parsePlayCounts`, threading the reused `dword`
buffer: every read goes through `readDword`, so reads past end of file yield
the buffer's stale value instead of stopping — on a truncated file the loop
keeps consuming whatever the last successful read left behind, exactly as
the source does. -/
def pcLoopS (file : List Nat) (tz : Int) (entryLen : Nat) :
    Nat → Nat → Nat → List Nat → List Track → List Track
  | 0, _, _, _, tl => tl
  | k + 1, i, off, dword, tl =>
    let d1 := readDword file off dword
    let playCount := u32Of d1
    if 0 < playCount then
      let d2 := readDword file (off + 4) d1
      pcLoopS file tz entryLen k (i + 1) (off + entryLen) d2
        (applyEntry i playCount (pcConvert tz (u32Of d2)) tl)
    else pcLoopS file tz entryLen k (i + 1) (off + entryLen) d1 tl

/-- The per-entry stride as `parsePlayCounts` reads it: 4 bytes at offset 8
into the freshly zero-filled `dword` (missing bytes read as 0). -/
def entryLenS (file : List Nat) : Nat :=
  u32Of (readDword file 8 (List.replicate 4 0))

/-- The entry count as `parsePlayCounts` reads it: 4 bytes at offset 12 into
the `dword` as left by the stride read. -/
def numEntriesS (file : List Nat) : Nat :=
  u32Of (readDword file 12 (readDword file 8 (List.replicate 4 0)))

/-- The exact model of `parsePlayCounts`: header reads fill the zero-filled
`dword` (partial reads keep the zeros), then `numEntries - 1` entries are
processed from offset 96 with the buffer threaded through, stale bytes and
all. -/
def parsePlayCountsS (file : List Nat) (tz : Int) (tl : List Track) : List Track :=
  pcLoopS file tz (entryLenS file) (numEntriesS file - 1) 0 96
    (readDword file 12 (readDword file 8 (List.replicate 4 0))) tl

/- ### Top-level pipeline (src/unnamed/part_000:501-542) -/

/-- `parse`: decode the database, then correlate the Play Counts file only
for the uncompressed format.  `compressed` models the `iTunesCDB` filename
test. -/
def parse (compressed : Bool) (inflate : List Nat → Option (List Nat))
    (dbFile pcFile : List Nat) (tz : Int) : List Track :=
  if compressed then parseCompressedItunesDb inflate dbFile tz
  else parsePlayCounts pcFile tz (parseUncompressedItunesDb dbFile)

/-- The sort comparator of `getRecentTracks`: `(a, b) => b.lastPlayed -
a.lastPlayed` sorts descending, i.e. keeps `a` before `b` when `a` is at
least as recent. -/
def moreRecent (a b : Track) : Bool := b.lastPlayed ≤ a.lastPlayed

/-- The history-assembling tail of `getRecentTracks`: keep tracks with a
truthy positive play count and sort them most-recently-played first. -/
def assembleRecent (tl : List Track) : List Track :=
  (tl.filter fun t => 0 < t.playCount).mergeSort moreRecent

/-- The play count stored in entry `m` of a play-counts file with stride
`entryLen` (0 when the read is out of bounds). -/
def pcAt (file : List Nat) (entryLen m : Nat) : Nat :=
  (readU32 file (96 + m * entryLen)).getD 0

/-- The raw last-played stamp stored in entry `m` of a play-counts file with
stride `entryLen` (0 when the read is out of bounds). -/
def lpAt (file : List Nat) (entryLen m : Nat) : Nat :=
  (readU32 file (96 + m * entryLen + 4)).getD 0

/- ### Concrete inputs for witnesses and counterexamples -/

/-- Concrete track for the claim C4 witness. -/
def tC4 : Track := ⟨"s", "a", "b", 3, 1000, 0, 180000⟩

/-- Concrete track for the claim C9 witness. -/
def tC9 : Track := ⟨"s", "a", "b", 0, 77, 4, 200000⟩

/-- Play-counts file for the claim C5 counterexample: stride 8, entry count 2
(so one entry is processed), and one entry with play count 1 and a raw
last-played stamp of 0. -/
def pcFileC5 : List Nat :=
  List.replicate 8 0 ++ [8, 0, 0, 0] ++ [2, 0, 0, 0] ++ List.replicate 80 0 ++
    [1, 0, 0, 0] ++ [0, 0, 0, 0]

/-- Track for the claim C5 counterexample, with `id = 0` so the single entry
matches it. -/
def tC5 : Track := ⟨"x", "y", "z", 0, 5, 0, 1000⟩

/-- A well-formed decompressed database buffer: one mhsd dataset of type 1 at
offset 0, an mhlt at 16 declaring one track, an mhit at 28 whose embedded
track identifier (offset 28+16) is 7, length 180000, play count 3, raw
last-played 0, and one title mhod at 120 (UTF-16LE, declared length 2,
payload `A`). -/
def bufC1 : List Nat :=
  [109, 104, 115, 100, 16, 0, 0, 0, 162, 0, 0, 0, 1, 0, 0, 0] ++
  [109, 104, 108, 116, 12, 0, 0, 0, 1, 0, 0, 0] ++
  [109, 104, 105, 116, 92, 0, 0, 0, 134, 0, 0, 0, 1, 0, 0, 0, 7, 0, 0, 0] ++
  List.replicate 20 0 ++ [32, 191, 2, 0] ++ List.replicate 36 0 ++
  [3, 0, 0, 0] ++ List.replicate 4 0 ++ [0, 0, 0, 0] ++
  [109, 104, 111, 100, 24, 0, 0, 0, 42, 0, 0, 0, 1, 0, 0, 0] ++
  List.replicate 8 0 ++ [1, 0, 0, 0] ++ [2, 0, 0, 0] ++ List.replicate 8 0 ++ [65, 0]

/-- A compressed container file: valid `mhbd` tag, header size 8, and a
2-byte zlib wrapper; the embedded stream is delivered by the concrete inflate
function of the counterexample. -/
def fileC1 : List Nat := [109, 104, 98, 100, 8, 0, 0, 0, 0, 0]

/-- The track decoded from `bufC1` by the compressed path: its `id` is the
loop position 0, not the embedded identifier 7. -/
def tC1c : Track := ⟨"A", "", "", 3, 0, 0, 180000⟩

/-- A well-formed uncompressed database file: a single mhit marker at offset
0, header size 44, one mhod entry, embedded identifier 7 at offset 16, length
180000 at offset 40, and a title mhod (declared length 4, payload
`A` followed by NULs). -/
def dbC1 : List Nat :=
  [109, 104, 105, 116, 44, 0, 0, 0, 0, 0, 0, 0, 1, 0, 0, 0, 7, 0, 0, 0] ++
  List.replicate 20 0 ++ [32, 191, 2, 0] ++ List.replicate 8 0 ++
  [48, 0, 0, 0] ++ [1, 0, 0, 0] ++ List.replicate 12 0 ++
  [4, 0, 0, 0] ++ List.replicate 8 0 ++ [65, 0, 0, 0]

/-- The track decoded from `dbC1` by the uncompressed path: its `id` is the
embedded identifier 7, and its title keeps the decoded NUL (`parsemhod` does
not strip NULs). -/
def tC1u : Track :=
  ⟨⟨[Char.ofNat 65, Char.ofNat 0]⟩, "", "", 0, 0, 7, 180000⟩

/-- A compressed-format file whose leading tag is not `mhbd`. -/
def badFileC2 : List Nat := [1, 2, 3, 4]

/-- A compressed-format file with a valid `mhbd` tag (its payload does not
matter: the counterexample inflate function always fails). -/
def okFileC2 : List Nat := [109, 104, 98, 100, 8, 0, 0, 0, 0, 0, 5, 6]

/-- An all-empty track, the `track = {}` object both mhod parsers mutate. -/
def t0C7 : Track := ⟨"", "", "", 0, 0, 0, 0⟩

/-- Play-counts file for the claim C3 witness: stride 8, entry count 4 (three
entries processed), play counts 5, 0, 9 and raw stamps 7, 99, 11. -/
def pcFileC3 : List Nat :=
  List.replicate 8 0 ++ [8, 0, 0, 0] ++ [4, 0, 0, 0] ++ List.replicate 80 0 ++
    [5, 0, 0, 0] ++ [7, 0, 0, 0] ++
    [0, 0, 0, 0] ++ [99, 0, 0, 0] ++
    [9, 0, 0, 0] ++ [11, 0, 0, 0]

/-- Track list for the claim C3 witness, with sequence ids 0, 1, 2. -/
def tlC3 : List Track :=
  [⟨"t0", "", "", 1, 50, 0, 10⟩, ⟨"t1", "", "", 2, 60, 1, 20⟩, ⟨"t2", "", "", 3, 70, 2, 30⟩]

/-- Truncated play-counts file for the claim C10 counterexample: the 96-byte
header declares stride 8 and entry count 100, but the file ends where the
entries should begin, so every entry read falls past end of file and returns
the stale `dword` contents (the entry-count bytes, value 100). -/
def pcFileC10 : List Nat :=
  List.replicate 8 0 ++ [8, 0, 0, 0] ++ [100, 0, 0, 0] ++ List.replicate 80 0

/-- Track for the claim C10 counterexample, with `id = 0` so the first
stale-valued entry index matches it. -/
def tC10 : Track := ⟨"c", "d", "e", 1, 5, 0, 30⟩
/- ### Shared helper lemmas -/

theorem setField_playCount (t : Track) (ty : Nat) (s : String) :
    (setField t ty s).playCount = t.playCount := by
  unfold setField
  repeat' split
  all_goals rfl

theorem setField_lastPlayed (t : Track) (ty : Nat) (s : String) :
    (setField t ty s).lastPlayed = t.lastPlayed := by
  unfold setField
  repeat' split
  all_goals rfl

theorem setField_id (t : Track) (ty : Nat) (s : String) :
    (setField t ty s).id = t.id := by
  unfold setField
  repeat' split
  all_goals rfl

theorem setField_length (t : Track) (ty : Nat) (s : String) :
    (setField t ty s).length = t.length := by
  unfold setField
  repeat' split
  all_goals rfl

theorem parsemhod_preserves (file : List Nat) (s hsz : Nat) (t : Track) (r : Nat × Track)
    (h : parsemhod file s hsz t = some r) :
    r.2.playCount = t.playCount ∧ r.2.lastPlayed = t.lastPlayed ∧ r.2.id = t.id ∧
    r.2.length = t.length := by
  unfold parsemhod at h
  repeat' split at h
  all_goals simp only [Option.some.injEq, reduceCtorEq] at h
  all_goals rw [← h]
  all_goals simp [setField_playCount, setField_lastPlayed, setField_id, setField_length]

theorem mhitMhodLoop_preserves (file : List Nat) (hsz : Nat) :
    ∀ (n s : Nat) (t t' : Track), mhitMhodLoop file hsz n s t = some t' →
      t'.playCount = t.playCount ∧ t'.lastPlayed = t.lastPlayed ∧ t'.id = t.id ∧
      t'.length = t.length := by
  intro n
  induction n with
  | zero =>
    intro s t t' h
    simp only [mhitMhodLoop, Option.some.injEq] at h
    rw [← h]
    exact ⟨rfl, rfl, rfl, rfl⟩
  | succ n ih =>
    intro s t t' h
    rw [mhitMhodLoop] at h
    cases hp : parsemhod file s hsz t with
    | none => rw [hp] at h; simp at h
    | some r =>
      rw [hp] at h
      obtain ⟨a1, a2, a3, a4⟩ := parsemhod_preserves file s hsz t r hp
      obtain ⟨b1, b2, b3, b4⟩ := ih (s + r.1) r.2 t' h
      exact ⟨b1.trans a1, b2.trans a2, b3.trans a3, b4.trans a4⟩

theorem parseMhit_fields (file : List Nat) (s : Nat) (t : Track)
    (h : parseMhit file s = some t) :
    readU32 file (s + 12) = some t.id ∧ readU32 file (s + 36) = some t.length ∧
    t.playCount = 0 ∧ t.lastPlayed = 0 := by
  unfold parseMhit at h
  split at h
  next headerSize cnt tid tlen hA hB hC hD =>
    obtain ⟨p1, p2, p3, p4⟩ := mhitMhodLoop_preserves file headerSize cnt s _ t h
    refine ⟨?_, ?_, p1, p2⟩
    · rw [hC, p3]
    · rw [hD, p4]
  next => simp at h

theorem parseMhodFromBuffer_preserves (buf : List Nat) (p : Nat) (t : Track) :
    (parseMhodFromBuffer buf p t).2.playCount = t.playCount ∧
    (parseMhodFromBuffer buf p t).2.lastPlayed = t.lastPlayed ∧
    (parseMhodFromBuffer buf p t).2.id = t.id ∧
    (parseMhodFromBuffer buf p t).2.length = t.length := by
  refine ⟨?_, ?_, ?_, ?_⟩
  all_goals unfold parseMhodFromBuffer
  all_goals dsimp only
  all_goals repeat' split
  all_goals simp [setField_playCount, setField_lastPlayed, setField_id, setField_length]

theorem mhodLoop_preserves (buf : List Nat) (e : Nat) :
    ∀ (n p : Nat) (t : Track),
      (mhodLoop buf e n p t).playCount = t.playCount ∧
      (mhodLoop buf e n p t).lastPlayed = t.lastPlayed ∧
      (mhodLoop buf e n p t).id = t.id ∧
      (mhodLoop buf e n p t).length = t.length := by
  intro n
  induction n with
  | zero => intro p t; simp [mhodLoop]
  | succ n ih =>
    intro p t
    rw [mhodLoop]
    split
    · obtain ⟨a1, a2, a3, a4⟩ := parseMhodFromBuffer_preserves buf p t
      obtain ⟨b1, b2, b3, b4⟩ := ih (p + (parseMhodFromBuffer buf p t).1)
        (parseMhodFromBuffer buf p t).2
      exact ⟨b1.trans a1, b2.trans a2, b3.trans a3, b4.trans a4⟩
    · exact ⟨rfl, rfl, rfl, rfl⟩

theorem parseTrackFromBuffer_fields (buf : List Nat) (tz : Int) (p i : Nat) (u : Track)
    (h : parseTrackFromBuffer buf tz p i = some u) :
    u.id = i ∧ readU32 buf (p + 40) = some u.length ∧
    readU32 buf (p + 0x50) = some u.playCount ∧
    ∃ lp, readU32 buf (p + 0x58) = some lp ∧ u.lastPlayed = hfsToUnix tz lp := by
  unfold parseTrackFromBuffer at h
  split at h
  · simp at h
  · split at h
    next hS hT nM tId tLen pC lpR hA hB hC hD hE hF hG =>
      simp only [Option.some.injEq] at h
      obtain ⟨q1, q2, q3, q4⟩ := mhodLoop_preserves buf (p + hT) nM (p + hS)
        { track := "", artist := "", album := "", playCount := pC,
          lastPlayed := hfsToUnix tz lpR, id := i, length := tLen }
      rw [← h]
      refine ⟨q3, ?_, ?_, lpR, hG, q2⟩
      · rw [hE, q4]
      · rw [hF, q1]
    next => simp at h

theorem foldl_preserve {β : Type} (P : Track → Prop) (step : List Track → β → List Track)
    (hstep : ∀ acc b x, x ∈ step acc b → x ∈ acc ∨ P x) :
    ∀ (l : List β) (acc : List Track) (x : Track), x ∈ l.foldl step acc → x ∈ acc ∨ P x := by
  intro l
  induction l with
  | nil => intro acc x hx; exact Or.inl hx
  | cons b l ih =>
    intro acc x hx
    rcases ih (step acc b) x hx with h | h
    · exact hstep acc b x h
    · exact Or.inr h

theorem mem_searchWindow (file : List Nat) (base r : Nat) (acc0 : List Track) (x : Track)
    (hx : x ∈ searchWindow file base r acc0) :
    x ∈ acc0 ∨ ∃ s, parseMhit file s = some x ∧ x.track ≠ "" := by
  refine foldl_preserve (fun y => ∃ s, parseMhit file s = some y ∧ y.track ≠ "")
    _ ?_ _ acc0 x hx
  intro acc i y hy
  simp only at hy
  split at hy
  · cases hp : parseMhit file (base + i + 4) with
    | none => rw [hp] at hy; exact Or.inl hy
    | some t =>
      rw [hp] at hy
      dsimp only at hy
      by_cases ht : t.track ≠ ""
      · rw [if_pos ht] at hy
        rcases List.mem_append.mp hy with h | h
        · exact Or.inl h
        · have hyt : y = t := by simpa using h
          subst hyt
          exact Or.inr ⟨base + i + 4, hp, ht⟩
      · rw [if_neg ht] at hy
        exact Or.inl hy
  · exact Or.inl hy

theorem mem_parseUncompressedItunesDb (file : List Nat) (x : Track)
    (hx : x ∈ parseUncompressedItunesDb file) :
    ∃ s, parseMhit file s = some x ∧ x.track ≠ "" := by
  unfold parseUncompressedItunesDb at hx
  have h := foldl_preserve (fun y => ∃ s, parseMhit file s = some y ∧ y.track ≠ "")
    (fun acc w => searchWindow file (w * WINDOW) (min WINDOW (file.length - w * WINDOW)) acc)
    (fun acc w y hy => mem_searchWindow file _ _ acc y hy) _ [] x hx
  rcases h with h | h
  · simp at h
  · exact h

theorem readU32_eq_of_le (file : List Nat) (pos : Nat) (h : pos + 4 ≤ file.length) :
    readU32 file pos = some ((readU32 file pos).getD 0) := by
  unfold readU32
  rw [if_pos h]
  rfl

theorem markPlayed_id (t : Track) (pc : Nat) (lp : Int) : (markPlayed t pc lp).id = t.id := rfl

theorem applyEntry_length (i pc : Nat) (lp : Int) :
    ∀ tl : List Track, (applyEntry i pc lp tl).length = tl.length := by
  intro tl
  induction tl with
  | nil => rfl
  | cons t ts ih =>
    unfold applyEntry
    split
    · simp
    · simpa using ih

theorem applyEntry_map_id (i pc : Nat) (lp : Int) :
    ∀ tl : List Track, (applyEntry i pc lp tl).map Track.id = tl.map Track.id := by
  intro tl
  induction tl with
  | nil => rfl
  | cons t ts ih =>
    unfold applyEntry
    split
    · simp [markPlayed_id]
    · simpa using ih

theorem getD_id_mem (ts : List Track) (j : Nat) (hj : j < ts.length) :
    (ts.getD j default).id ∈ ts.map Track.id := by
  rw [List.getD_eq_getElem _ _ hj]
  exact List.mem_map_of_mem Track.id (List.getElem_mem hj)

theorem applyEntry_getD (i pc : Nat) (lp : Int) :
    ∀ (tl : List Track), (tl.map Track.id).Nodup → ∀ j, j < tl.length →
      (applyEntry i pc lp tl).getD j default =
        (if (tl.getD j default).id = i then markPlayed (tl.getD j default) pc lp
         else tl.getD j default) := by
  intro tl
  induction tl with
  | nil => intro _ j hj; simp at hj
  | cons t ts ih =>
    intro hN j hj
    rw [List.map_cons, List.nodup_cons] at hN
    cases j with
    | zero =>
      unfold applyEntry
      by_cases hti : t.id = i
      · rw [if_pos hti]
        simp [hti]
      · rw [if_neg hti]
        simp [hti]
    | succ j =>
      have hjs : j < ts.length := by simpa using hj
      unfold applyEntry
      by_cases hti : t.id = i
      · rw [if_pos hti]
        have hne : (ts.getD j default).id ≠ i := by
          intro hc
          exact hN.1 (hti ▸ hc ▸ getD_id_mem ts j hjs)
        simp only [List.getD_cons_succ]
        rw [if_neg hne]
      · rw [if_neg hti]
        simp only [List.getD_cons_succ]
        exact ih hN.2 j hjs

theorem applyEntry_getD_cases (i pc : Nat) (lp : Int) :
    ∀ (tl : List Track) (j : Nat), j < tl.length →
      (applyEntry i pc lp tl).getD j default = tl.getD j default ∨
      ((tl.getD j default).id = i ∧
        (applyEntry i pc lp tl).getD j default = markPlayed (tl.getD j default) pc lp) := by
  intro tl
  induction tl with
  | nil => intro j hj; simp at hj
  | cons t ts ih =>
    intro j hj
    cases j with
    | zero =>
      unfold applyEntry
      by_cases hti : t.id = i
      · rw [if_pos hti]
        exact Or.inr ⟨hti, rfl⟩
      · rw [if_neg hti]
        exact Or.inl rfl
    | succ j =>
      have hjs : j < ts.length := by simpa using hj
      unfold applyEntry
      by_cases hti : t.id = i
      · rw [if_pos hti]
        simp only [List.getD_cons_succ]
        exact Or.inl trivial
      · rw [if_neg hti]
        simp only [List.getD_cons_succ]
        exact ih j hjs

theorem pcLoop_getD (file : List Nat) (tz : Int) (entryLen : Nat) :
    ∀ (k i : Nat) (tl : List Track),
      (∀ m, i ≤ m → m < i + k → 96 + m * entryLen + 8 ≤ file.length) →
      (tl.map Track.id).Nodup →
      (pcLoop file tz entryLen k i (96 + i * entryLen) tl).length = tl.length ∧
      ∀ j, j < tl.length →
        (pcLoop file tz entryLen k i (96 + i * entryLen) tl).getD j default =
          (if i ≤ (tl.getD j default).id ∧ (tl.getD j default).id < i + k ∧
              0 < pcAt file entryLen (tl.getD j default).id then
            markPlayed (tl.getD j default) (pcAt file entryLen (tl.getD j default).id)
              (pcConvert tz (lpAt file entryLen (tl.getD j default).id))
          else tl.getD j default) := by
  intro k
  induction k with
  | zero =>
    intro i tl hb hN
    refine ⟨rfl, fun j hj => ?_⟩
    rw [if_neg (by omega)]
    rfl
  | succ k ih =>
    intro i tl hb hN
    have hb0 : 96 + i * entryLen + 8 ≤ file.length := hb i (le_refl i) (by omega)
    have hpc : readU32 file (96 + i * entryLen) = some (pcAt file entryLen i) := by
      have h := readU32_eq_of_le file (96 + i * entryLen) (by omega)
      simpa [pcAt] using h
    have hlp : readU32 file (96 + i * entryLen + 4) = some (lpAt file entryLen i) := by
      have h := readU32_eq_of_le file (96 + i * entryLen + 4) (by omega)
      simpa [lpAt] using h
    have hoff : 96 + i * entryLen + entryLen = 96 + (i + 1) * entryLen := by ring
    have hb' : ∀ m, i + 1 ≤ m → m < i + 1 + k → 96 + m * entryLen + 8 ≤ file.length :=
      fun m h1 h2 => hb m (by omega) (by omega)
    by_cases h0 : 0 < pcAt file entryLen i
    · have hstep : pcLoop file tz entryLen (k + 1) i (96 + i * entryLen) tl =
          pcLoop file tz entryLen k (i + 1) (96 + (i + 1) * entryLen)
            (applyEntry i (pcAt file entryLen i) (pcConvert tz (lpAt file entryLen i)) tl) := by
        simp only [pcLoop]
        rw [hpc]
        dsimp only
        rw [if_pos h0, hlp]
        dsimp only
        rw [hoff]
      have hN' : ((applyEntry i (pcAt file entryLen i)
          (pcConvert tz (lpAt file entryLen i)) tl).map Track.id).Nodup := by
        rw [applyEntry_map_id]
        exact hN
      obtain ⟨ihl, ihg⟩ := ih (i + 1)
        (applyEntry i (pcAt file entryLen i) (pcConvert tz (lpAt file entryLen i)) tl) hb' hN'
      constructor
      · rw [hstep, ihl, applyEntry_length]
      · intro j hj
        have hj' : j < (applyEntry i (pcAt file entryLen i)
            (pcConvert tz (lpAt file entryLen i)) tl).length := by
          rw [applyEntry_length]
          exact hj
        have hAE := applyEntry_getD i (pcAt file entryLen i)
          (pcConvert tz (lpAt file entryLen i)) tl hN j hj
        have hIH := ihg j hj'
        rw [hstep, hIH, hAE]
        by_cases hid : (tl.getD j default).id = i
        · rw [if_pos hid]
          rw [if_neg (by rw [markPlayed_id, hid]; omega)]
          rw [if_pos (by rw [hid]; exact ⟨le_refl i, by omega, h0⟩)]
          rw [hid]
        · rw [if_neg hid]
          refine if_congr ⟨?_, ?_⟩ rfl rfl
          · rintro ⟨x, y, z⟩
            exact ⟨by omega, by omega, z⟩
          · rintro ⟨x, y, z⟩
            have hgt : i + 1 ≤ (tl.getD j default).id := by omega
            exact ⟨hgt, by omega, z⟩
    · have hstep : pcLoop file tz entryLen (k + 1) i (96 + i * entryLen) tl =
          pcLoop file tz entryLen k (i + 1) (96 + (i + 1) * entryLen) tl := by
        simp only [pcLoop]
        rw [hpc]
        dsimp only
        rw [if_neg h0, hoff]
      obtain ⟨ihl, ihg⟩ := ih (i + 1) tl hb' hN
      constructor
      · rw [hstep, ihl]
      · intro j hj
        rw [hstep, ihg j hj]
        refine if_congr ⟨?_, ?_⟩ rfl rfl
        · rintro ⟨x, y, z⟩
          exact ⟨by omega, by omega, z⟩
        · rintro ⟨x, y, z⟩
          have hne : (tl.getD j default).id ≠ i := by
            intro hc
            rw [hc] at z
            exact absurd z h0
          exact ⟨by omega, by omega, z⟩

theorem pcLoop_frame (file : List Nat) (tz : Int) (entryLen : Nat) :
    ∀ (k i : Nat) (tl : List Track),
      (pcLoop file tz entryLen k i (96 + i * entryLen) tl).length = tl.length ∧
      ∀ j, j < tl.length →
        (pcLoop file tz entryLen k i (96 + i * entryLen) tl).getD j default =
          tl.getD j default ∨
        ∃ m pc lpRaw, i ≤ m ∧ m < i + k ∧
          readU32 file (96 + m * entryLen) = some pc ∧ 0 < pc ∧
          (tl.getD j default).id = m ∧
          readU32 file (96 + m * entryLen + 4) = some lpRaw ∧
          (pcLoop file tz entryLen k i (96 + i * entryLen) tl).getD j default =
            markPlayed (tl.getD j default) pc (pcConvert tz lpRaw) := by
  intro k
  induction k with
  | zero =>
    intro i tl
    exact ⟨rfl, fun j hj => Or.inl rfl⟩
  | succ k ih =>
    intro i tl
    have hoff : 96 + i * entryLen + entryLen = 96 + (i + 1) * entryLen := by ring
    cases hpc : readU32 file (96 + i * entryLen) with
    | none =>
      have hstep : pcLoop file tz entryLen (k + 1) i (96 + i * entryLen) tl = tl := by
        simp only [pcLoop]
        rw [hpc]
      rw [hstep]
      exact ⟨rfl, fun j hj => Or.inl rfl⟩
    | some pc =>
      by_cases h0 : 0 < pc
      · cases hlp : readU32 file (96 + i * entryLen + 4) with
        | none =>
          have hstep : pcLoop file tz entryLen (k + 1) i (96 + i * entryLen) tl = tl := by
            simp only [pcLoop]
            rw [hpc]
            dsimp only
            rw [if_pos h0, hlp]
          rw [hstep]
          exact ⟨rfl, fun j hj => Or.inl rfl⟩
        | some lpRaw =>
          have hstep : pcLoop file tz entryLen (k + 1) i (96 + i * entryLen) tl =
              pcLoop file tz entryLen k (i + 1) (96 + (i + 1) * entryLen)
                (applyEntry i pc (pcConvert tz lpRaw) tl) := by
            simp only [pcLoop]
            rw [hpc]
            dsimp only
            rw [if_pos h0, hlp]
            dsimp only
            rw [hoff]
          obtain ⟨ihl, ihg⟩ := ih (i + 1) (applyEntry i pc (pcConvert tz lpRaw) tl)
          constructor
          · rw [hstep, ihl, applyEntry_length]
          · intro j hj
            have hj' : j < (applyEntry i pc (pcConvert tz lpRaw) tl).length := by
              rw [applyEntry_length]
              exact hj
            have hAE := applyEntry_getD_cases i pc (pcConvert tz lpRaw) tl j hj
            rcases ihg j hj' with hL | ⟨m, pc', lp', h1, h2, h3, h4, hid', h5, heq⟩
            · rw [hstep, hL]
              rcases hAE with hA | ⟨hid, hA⟩
              · exact Or.inl hA
              · exact Or.inr ⟨i, pc, lpRaw, le_refl i, by omega, hpc, h0, hid, hlp, hA⟩
            · rcases hAE with hA | ⟨hid, hA⟩
              · rw [hA] at hid' heq
                exact Or.inr ⟨m, pc', lp', by omega, by omega, h3, h4, hid', h5,
                  by rw [hstep]; exact heq⟩
              · rw [hA, markPlayed_id] at hid'
                omega
      · have hstep : pcLoop file tz entryLen (k + 1) i (96 + i * entryLen) tl =
            pcLoop file tz entryLen k (i + 1) (96 + (i + 1) * entryLen) tl := by
          simp only [pcLoop]
          rw [hpc]
          dsimp only
          rw [if_neg h0, hoff]
        obtain ⟨ihl, ihg⟩ := ih (i + 1) tl
        constructor
        · rw [hstep, ihl]
        · intro j hj
          rw [hstep]
          rcases ihg j hj with hL | ⟨m, pc', lp', h1, h2, h3, h4, hid', h5, heq⟩
          · exact Or.inl hL
          · exact Or.inr ⟨m, pc', lp', by omega, by omega, h3, h4, hid', h5, heq⟩

theorem expandTrack_eq (t : Track) (hne : t.playCount ≠ 0) :
    expandTrack t = (List.range t.playCount).map (fun (i : Nat) =>
      { t with
        playCount := 1,
        lastPlayed := t.lastPlayed -
          (i : Int) * (((if t.length = 0 then 180000 else t.length) / 1000 : Nat) : Int) }) := by
  simp only [expandTrack]
  rw [if_neg hne]

theorem expandTrack_length (u : Track) :
    (expandTrack u).length = if u.playCount = 0 then 1 else u.playCount := by
  simp [expandTrack]

theorem expandTrack_length_pos (u : Track) : 1 ≤ (expandTrack u).length := by
  rw [expandTrack_length]
  split <;> omega

/-- Reading byte `pos + k` through a 4-byte take of a drop, for in-bounds
positions. -/
theorem getD_take_drop (file : List Nat) (pos k : Nat) (hk : k < 4)
    (h : pos + 4 ≤ file.length) :
    ((file.drop pos).take 4).getD k 0 = file.getD (pos + k) 0 := by
  have h1 : k < ((file.drop pos).take 4).length := by
    simp only [List.length_take, List.length_drop]
    omega
  have h2 : pos + k < file.length := by omega
  have h3 : k < (file.drop pos).length := by
    simp only [List.length_drop]
    omega
  rw [List.getD_eq_getElem _ _ h1, List.getD_eq_getElem _ _ h2]
  rw [List.getElem_take]
  rw [List.getElem_drop]

/-- On an in-bounds position, a `readDword` into any buffer fully overwrites
it and yields exactly the value `readU32` reads there. -/
theorem u32Of_readDword (file : List Nat) (pos : Nat) (dw : List Nat)
    (h : pos + 4 ≤ file.length) :
    readU32 file pos = some (u32Of (readDword file pos dw)) := by
  have hlen : ((file.drop pos).take 4).length = 4 := by
    simp only [List.length_take, List.length_drop]
    omega
  have hgetD : ∀ k, k < 4 → (readDword file pos dw).getD k 0 = file.getD (pos + k) 0 := by
    intro k hk
    unfold readDword
    rw [List.getD_append _ _ _ _ (by omega)]
    exact getD_take_drop file pos k hk h
  unfold readU32 u32Of
  rw [if_pos h]
  rw [hgetD 0 (by omega), hgetD 1 (by omega), hgetD 2 (by omega), hgetD 3 (by omega)]
  norm_num

/-- Frame property of the exact entry loop: the list length never changes,
and an element differs from its input only by having been overwritten via
`applyEntry` with some positive play count at an entry index equal to its
id — with no guarantee the values came from in-file bytes. -/
theorem pcLoopS_frame (file : List Nat) (tz : Int) (entryLen : Nat) :
    ∀ (k i off : Nat) (dw : List Nat) (tl : List Track),
      (pcLoopS file tz entryLen k i off dw tl).length = tl.length ∧
      ∀ j, j < tl.length →
        (pcLoopS file tz entryLen k i off dw tl).getD j default = tl.getD j default ∨
        ∃ m pc lp, i ≤ m ∧ m < i + k ∧ 0 < pc ∧ (tl.getD j default).id = m ∧
          (pcLoopS file tz entryLen k i off dw tl).getD j default =
            markPlayed (tl.getD j default) pc lp := by
  intro k
  induction k with
  | zero =>
    intro i off dw tl
    exact ⟨rfl, fun j hj => Or.inl rfl⟩
  | succ k ih =>
    intro i off dw tl
    by_cases h0 : 0 < u32Of (readDword file off dw)
    · have hstep : pcLoopS file tz entryLen (k + 1) i off dw tl =
          pcLoopS file tz entryLen k (i + 1) (off + entryLen)
            (readDword file (off + 4) (readDword file off dw))
            (applyEntry i (u32Of (readDword file off dw))
              (pcConvert tz (u32Of (readDword file (off + 4) (readDword file off dw)))) tl) := by
        simp only [pcLoopS]
        rw [if_pos h0]
      obtain ⟨ihl, ihg⟩ := ih (i + 1) (off + entryLen)
        (readDword file (off + 4) (readDword file off dw))
        (applyEntry i (u32Of (readDword file off dw))
          (pcConvert tz (u32Of (readDword file (off + 4) (readDword file off dw)))) tl)
      constructor
      · rw [hstep, ihl, applyEntry_length]
      · intro j hj
        have hj' : j < (applyEntry i (u32Of (readDword file off dw))
            (pcConvert tz (u32Of (readDword file (off + 4) (readDword file off dw)))) tl).length := by
          rw [applyEntry_length]
          exact hj
        have hAE := applyEntry_getD_cases i (u32Of (readDword file off dw))
          (pcConvert tz (u32Of (readDword file (off + 4) (readDword file off dw)))) tl j hj
        rcases ihg j hj' with hL | ⟨m, pc', lp', h1, h2, h4, hid', heq⟩
        · rw [hstep, hL]
          rcases hAE with hA | ⟨hid, hA⟩
          · exact Or.inl hA
          · exact Or.inr ⟨i, u32Of (readDword file off dw),
              pcConvert tz (u32Of (readDword file (off + 4) (readDword file off dw))),
              le_refl i, by omega, h0, hid, hA⟩
        · rcases hAE with hA | ⟨hid, hA⟩
          · rw [hA] at hid' heq
            exact Or.inr ⟨m, pc', lp', by omega, by omega, h4, hid',
              by rw [hstep]; exact heq⟩
          · rw [hA, markPlayed_id] at hid'
            omega
    · have hstep : pcLoopS file tz entryLen (k + 1) i off dw tl =
          pcLoopS file tz entryLen k (i + 1) (off + entryLen) (readDword file off dw) tl := by
        simp only [pcLoopS]
        rw [if_neg h0]
      obtain ⟨ihl, ihg⟩ := ih (i + 1) (off + entryLen) (readDword file off dw) tl
      constructor
      · rw [hstep, ihl]
      · intro j hj
        rw [hstep]
        rcases ihg j hj with hL | ⟨m, pc', lp', h1, h2, h4, hid', heq⟩
        · exact Or.inl hL
        · exact Or.inr ⟨m, pc', lp', by omega, by omega, h4, hid', heq⟩

/-- On files long enough for every processed entry, the exact stale-buffer
loop and the in-bounds loop agree: each read fully overwrites the buffer, so
the stale contents are never consumed. -/
theorem pcLoopS_eq_pcLoop (file : List Nat) (tz : Int) (entryLen : Nat) :
    ∀ (k i : Nat) (dw : List Nat) (tl : List Track),
      (∀ m, i ≤ m → m < i + k → 96 + m * entryLen + 8 ≤ file.length) →
      pcLoopS file tz entryLen k i (96 + i * entryLen) dw tl =
        pcLoop file tz entryLen k i (96 + i * entryLen) tl := by
  intro k
  induction k with
  | zero => intro i dw tl hb; rfl
  | succ k ih =>
    intro i dw tl hb
    have hb0 : 96 + i * entryLen + 8 ≤ file.length := hb i (le_refl i) (by omega)
    have hoff : 96 + i * entryLen + entryLen = 96 + (i + 1) * entryLen := by ring
    have hb' : ∀ m, i + 1 ≤ m → m < i + 1 + k → 96 + m * entryLen + 8 ≤ file.length :=
      fun m h1 h2 => hb m (by omega) (by omega)
    have hr1 : readU32 file (96 + i * entryLen) =
        some (u32Of (readDword file (96 + i * entryLen) dw)) :=
      u32Of_readDword file (96 + i * entryLen) dw (by omega)
    have hr2 : readU32 file (96 + i * entryLen + 4) =
        some (u32Of (readDword file (96 + i * entryLen + 4)
          (readDword file (96 + i * entryLen) dw))) :=
      u32Of_readDword file (96 + i * entryLen + 4) _ (by omega)
    simp only [pcLoopS, pcLoop]
    rw [hr1]
    dsimp only
    by_cases h0 : 0 < u32Of (readDword file (96 + i * entryLen) dw)
    · rw [if_pos h0, if_pos h0, hr2]
      dsimp only
      rw [hoff]
      exact ih (i + 1) _ _ hb'
    · rw [if_neg h0, if_neg h0, hoff]
      exact ih (i + 1) _ _ hb'

/- ### Claim theorems -/


set_option maxRecDepth 16384 in
/-- Claim C1 counterexample: a compressed-database decode whose single mhit
embeds identifier 7 returns a track with `sequenceId` 0 (the position in the
track-list iteration) — the compressed path does not use the embedded
identifier, refuting the claim's assignment of ids to the two paths. -/
theorem c1_counterexample :
    parseCompressedItunesDb (fun _ => some bufC1) fileC1 0 = [tC1c] ∧
    readU32 bufC1 (28 + 16) = some 7 ∧
    tC1c.id = 0 ∧ (0 : Nat) ≠ 7 :=
  ⟨by decide, by decide, rfl, by decide⟩

/-- Claim C1 (amended): the id assignment is the reverse of the claim — every
track returned by the uncompressed decode carries the identifier embedded in
its mhit record (the u32 read 12 bytes past the post-tag anchor, i.e. at item
offset +16), while every track decoded by the compressed path's
`parseTrackFromBuffer` carries the caller's 0-based iteration index. -/
theorem c1_amended_ids (file buf : List Nat) (tz : Int) (t : Track)
    (ht : t ∈ parseUncompressedItunesDb file) (p i : Nat) (u : Track)
    (hu : parseTrackFromBuffer buf tz p i = some u) :
    (∃ s, parseMhit file s = some t ∧ readU32 file (s + 12) = some t.id) ∧ u.id = i := by
  constructor
  · obtain ⟨s, hs, _⟩ := mem_parseUncompressedItunesDb file t ht
    exact ⟨s, hs, (parseMhit_fields file s t hs).1⟩
  · exact (parseTrackFromBuffer_fields buf tz p i u hu).1

set_option maxRecDepth 16384 in
/-- Claim C1 witness: the amended id assignment evaluated on a concrete
uncompressed file (embedded id 7) and a concrete decompressed buffer (loop
position 0). -/
theorem c1_amended_ids_witness :
    (tC1u ∈ parseUncompressedItunesDb dbC1) ∧
    parseTrackFromBuffer bufC1 0 28 0 = some tC1c ∧
    ((∃ s, parseMhit dbC1 s = some tC1u ∧ readU32 dbC1 (s + 12) = some tC1u.id) ∧
      tC1c.id = 0) := by
  have h1 : tC1u ∈ parseUncompressedItunesDb dbC1 := by decide
  have h2 : parseTrackFromBuffer bufC1 0 28 0 = some tC1c := by decide
  exact ⟨h1, h2, c1_amended_ids dbC1 bufC1 0 tC1u h1 28 0 tC1c h2⟩

/-- Claim C2 counterexample: a compressed file with a wrong leading tag makes
the decode return normally with an empty track list (`Except.ok []` even
before the catch — the bad-tag path is a plain `return`), and a failing
inflate raises an error that `parseCompressedItunesDb` itself catches,
returning `[]`; in neither case is an error propagated to the caller. -/
theorem c2_counterexample :
    parseCompressedCore (fun _ => none) badFileC2 0 = Except.ok [] ∧
    parseCompressedItunesDb (fun _ => none) badFileC2 0 = [] ∧
    parseCompressedCore (fun _ => none) okFileC2 0 = Except.error DbError.decompressionError ∧
    parseCompressedItunesDb (fun _ => none) okFileC2 0 = [] :=
  ⟨rfl, rfl, rfl, rfl⟩

/-- Claim C2 (amended): a wrong leading tag or a failed inflate aborts the
compressed decode with no partial output, but no error reaches the caller —
the bad-tag case returns an empty list without raising, and the inflate
failure is caught by the function's own catch, which also returns the empty
list. -/
theorem c2_amended_empty_on_failure (inflate : List Nat → Option (List Nat))
    (file fileB : List Nat) (tz tzB : Int)
    (h1 : ((List.range 4).map fun k => file.getD k 0 % 128) ≠ mhbdTag)
    (h2 : ((List.range 4).map fun k => fileB.getD k 0 % 128) = mhbdTag)
    (h3 : inflate (deflateSlice fileB) = none) :
    parseCompressedCore inflate file tz = Except.ok [] ∧
    parseCompressedItunesDb inflate file tz = [] ∧
    parseCompressedCore inflate fileB tzB = Except.error DbError.decompressionError ∧
    parseCompressedItunesDb inflate fileB tzB = [] := by
  have hcore : parseCompressedCore inflate file tz = Except.ok [] := by
    unfold parseCompressedCore
    rw [if_pos h1]
  have hcoreB : parseCompressedCore inflate fileB tzB = Except.error DbError.decompressionError := by
    unfold parseCompressedCore
    rw [if_neg (not_not_intro h2), h3]
  refine ⟨hcore, ?_, hcoreB, ?_⟩
  · unfold parseCompressedItunesDb
    rw [hcore]
  · unfold parseCompressedItunesDb
    rw [hcoreB]

/-- Claim C2 witness: the amended failure behavior on a concrete bad-tag file
and a concrete well-tagged file with an always-failing inflate. -/
theorem c2_amended_empty_on_failure_witness :
    (((List.range 4).map fun k => badFileC2.getD k 0 % 128) ≠ mhbdTag) ∧
    (((List.range 4).map fun k => okFileC2.getD k 0 % 128) = mhbdTag) ∧
    ((fun _ : List Nat => (none : Option (List Nat))) (deflateSlice okFileC2) = none) ∧
    (parseCompressedCore (fun _ => none) badFileC2 0 = Except.ok [] ∧
      parseCompressedItunesDb (fun _ => none) badFileC2 0 = [] ∧
      parseCompressedCore (fun _ => none) okFileC2 0 = Except.error DbError.decompressionError ∧
      parseCompressedItunesDb (fun _ => none) okFileC2 0 = []) := by
  refine ⟨by decide, by decide, rfl, ?_⟩
  exact c2_amended_empty_on_failure (fun _ => none) badFileC2 okFileC2 0 0
    (by decide) (by decide) rfl

/-- Claim C3: in play-counts correlation, entry `i` with a nonzero play count
updates exactly the track whose sequence id equals `i` (overwriting its play
count and converted last-played stamp), unmatched entries are dropped without
creating records, and tracks without a matching nonzero entry are returned
untouched. -/
theorem c3_correlation (file : List Nat) (tz : Int) (tl : List Track)
    (entryLen numEntries : Nat)
    (hEL : readU32 file 8 = some entryLen)
    (hNE : readU32 file 12 = some numEntries)
    (hb : ∀ m, m < numEntries - 1 → 96 + m * entryLen + 8 ≤ file.length)
    (hN : (tl.map Track.id).Nodup) :
    (parsePlayCounts file tz tl).length = tl.length ∧
    ∀ j, j < tl.length →
      (parsePlayCounts file tz tl).getD j default =
        (if (tl.getD j default).id < numEntries - 1 ∧
            0 < pcAt file entryLen (tl.getD j default).id then
          markPlayed (tl.getD j default) (pcAt file entryLen (tl.getD j default).id)
            (pcConvert tz (lpAt file entryLen (tl.getD j default).id))
        else tl.getD j default) := by
  have hmain : parsePlayCounts file tz tl =
      pcLoop file tz entryLen (numEntries - 1) 0 (96 + 0 * entryLen) tl := by
    unfold parsePlayCounts
    rw [hEL, hNE]
    norm_num
  obtain ⟨hl, hg⟩ := pcLoop_getD file tz entryLen (numEntries - 1) 0 tl
    (fun m h1 h2 => hb m (by omega)) hN
  rw [hmain]
  refine ⟨hl, fun j hj => ?_⟩
  rw [hg j hj]
  refine if_congr ⟨?_, ?_⟩ rfl rfl
  · rintro ⟨x, y, z⟩
    exact ⟨by omega, z⟩
  · rintro ⟨x, z⟩
    exact ⟨by omega, by omega, z⟩

set_option maxRecDepth 16384 in
/-- Claim C3 witness: the spec's own example — sequence ids 0, 1, 2 with
nonzero entries only at indices 0 and 2: tracks 0 and 2 are updated, track 1
is untouched, and no entry creates an orphan record. -/
theorem c3_correlation_witness :
    readU32 pcFileC3 8 = some 8 ∧
    readU32 pcFileC3 12 = some 4 ∧
    (∀ m, m < 4 - 1 → 96 + m * 8 + 8 ≤ pcFileC3.length) ∧
    (tlC3.map Track.id).Nodup ∧
    (parsePlayCounts pcFileC3 0 tlC3).length = tlC3.length ∧
    (parsePlayCounts pcFileC3 0 tlC3).getD 0 default =
      markPlayed (tlC3.getD 0 default) 5 (pcConvert 0 7) ∧
    (parsePlayCounts pcFileC3 0 tlC3).getD 1 default = tlC3.getD 1 default ∧
    (parsePlayCounts pcFileC3 0 tlC3).getD 2 default =
      markPlayed (tlC3.getD 2 default) 9 (pcConvert 0 11) := by
  have h := c3_correlation pcFileC3 0 tlC3 8 4 (by decide) (by decide) (by decide) (by decide)
  refine ⟨by decide, by decide, by decide, by decide, h.1, ?_, ?_, ?_⟩
  · have h0 := h.2 0 (by decide)
    rw [if_pos (by decide)] at h0
    simpa using h0
  · have h1 := h.2 1 (by decide)
    rw [if_neg (by decide)] at h1
    exact h1
  · have h2 := h.2 2 (by decide)
    rw [if_pos (by decide)] at h2
    simpa using h2

/-- Claim C4: a track with play count `n > 0`, last played `t` and length `L`
milliseconds (`L` read as 180000 when zero/absent) expands to exactly `n`
events with timestamps `t - i * (L / 1000)` for `i = 0 .. n-1`. -/
theorem c4_expander (t : Track) (n : Nat) (hn : t.playCount = n) (hpos : 0 < n) :
    (expandTracksByPlayCount [t]).length = n ∧
    ∀ i, i < n →
      ((expandTracksByPlayCount [t]).getD i default).lastPlayed =
        t.lastPlayed -
          (i : Int) * (((if t.length = 0 then 180000 else t.length) / 1000 : Nat) : Int) := by
  have hne : t.playCount ≠ 0 := by omega
  have hsingle : expandTracksByPlayCount [t] = expandTrack t := by
    simp [expandTracksByPlayCount]
  rw [hsingle, expandTrack_eq t hne, hn]
  refine ⟨by simp, fun i hi => ?_⟩
  rw [List.getD_eq_getElem _ _ (by simpa using hi)]
  simp

/-- Claim C4 witness: the spec's own example, `playCount = 3`,
`lengthMs = 180000`, `lastPlayedUnix = 1000`, yields events at 1000, 820 and
640. -/
theorem c4_expander_witness :
    tC4.playCount = 3 ∧ 0 < 3 ∧
    (expandTracksByPlayCount [tC4]).length = 3 ∧
    ((expandTracksByPlayCount [tC4]).getD 0 default).lastPlayed = 1000 ∧
    ((expandTracksByPlayCount [tC4]).getD 1 default).lastPlayed = 820 ∧
    ((expandTracksByPlayCount [tC4]).getD 2 default).lastPlayed = 640 := by
  have h := c4_expander tC4 3 rfl (by decide)
  refine ⟨rfl, by decide, h.1, ?_, ?_, ?_⟩
  · have := h.2 0 (by decide)
    simpa [tC4] using this
  · have := h.2 1 (by decide)
    simpa [tC4] using this
  · have := h.2 2 (by decide)
    simpa [tC4] using this

/-- Claim C5 counterexample: at the play-counts correlation site the claimed
conversion law `hfsToUnix 0 = 0` fails — a matched entry with raw stamp 0 and
timezone offset 0 is stored as `-2082844800`, not `0`. -/
theorem c5_counterexample :
    (parsePlayCounts pcFileC5 0 [tC5]).map Track.lastPlayed = [-2082844800] ∧
    (-2082844800 : Int) ≠ 0 := by
  constructor
  · rfl
  · decide

/-- Claim C5 (amended): the conversion at the track-decode site maps 0 to 0
and any `x > 0` to `x - 2082844800 + tz`; the inline conversion at the
play-counts site applies `x - 2082844800 + tz` unconditionally, so a raw 0
becomes `tz - 2082844800` there. -/
theorem c5_amended_hfs (tz : Int) (x : Nat) (hx : 0 < x) :
    hfsToUnix tz 0 = 0 ∧
    hfsToUnix tz x = (x : Int) - 2082844800 + tz ∧
    pcConvert tz x = (x : Int) - 2082844800 + tz ∧
    pcConvert tz 0 = tz - 2082844800 := by
  refine ⟨by simp [hfsToUnix], by simp [hfsToUnix, hx], rfl, ?_⟩
  unfold pcConvert
  push_cast
  ring

/-- Claim C5 witness: the amended conversion laws at `tz = 7`, `x = 5`. -/
theorem c5_amended_hfs_witness :
    0 < 5 ∧
    (hfsToUnix 7 0 = 0 ∧ hfsToUnix 7 5 = (5 : Int) - 2082844800 + 7 ∧
      pcConvert 7 5 = (5 : Int) - 2082844800 + 7 ∧ pcConvert 7 0 = 7 - 2082844800) :=
  ⟨by decide, c5_amended_hfs 7 5 (by decide)⟩

set_option maxRecDepth 16384 in
/-- Claim C6 counterexample: in the concrete mhit item of `dbC1` the u32 at
item offset +12 is 1 (the mhod count), yet the decoder returns identifier 7,
the u32 at item offset +16 — the identifier is not read at +12. -/
theorem c6_counterexample :
    parseMhit dbC1 4 = some tC1u ∧
    readU32 dbC1 12 = some 1 ∧ readU32 dbC1 16 = some 7 ∧
    tC1u.id = 7 ∧ (7 : Nat) ≠ 1 :=
  ⟨by decide, by decide, by decide, rfl, by decide⟩

/-- Claim C6 (amended): within an mhit item the decoders read the identifier
at item offset +16 (not +12), the length at +0x28, and — on the compressed
path only — the play count at +0x50 and the HFS-encoded last-played stamp at
+0x58; the uncompressed-path `parseMhit` reads only identifier and length. -/
theorem c6_amended_offsets (file buf : List Nat) (tz : Int) (p q i : Nat) (t u : Track)
    (hm : parseMhit file (p + 4) = some t)
    (hc : parseTrackFromBuffer buf tz q i = some u) :
    (readU32 file (p + 16) = some t.id ∧ readU32 file (p + 40) = some t.length) ∧
    (readU32 buf (q + 40) = some u.length ∧ readU32 buf (q + 0x50) = some u.playCount ∧
      ∃ lp, readU32 buf (q + 0x58) = some lp ∧ u.lastPlayed = hfsToUnix tz lp) := by
  have h1 := parseMhit_fields file (p + 4) t hm
  have h2 := parseTrackFromBuffer_fields buf tz q i u hc
  refine ⟨⟨?_, ?_⟩, h2.2⟩
  · have := h1.1
    rw [Nat.add_assoc] at this
    exact this
  · have := h1.2.1
    rw [Nat.add_assoc] at this
    exact this

set_option maxRecDepth 16384 in
/-- Claim C6 witness: the amended field offsets evaluated on the concrete
mhit items of `dbC1` (uncompressed path) and `bufC1` (compressed path). -/
theorem c6_amended_offsets_witness :
    parseMhit dbC1 (0 + 4) = some tC1u ∧
    parseTrackFromBuffer bufC1 0 28 0 = some tC1c ∧
    ((readU32 dbC1 (0 + 16) = some tC1u.id ∧ readU32 dbC1 (0 + 40) = some tC1u.length) ∧
      (readU32 bufC1 (28 + 40) = some tC1c.length ∧
        readU32 bufC1 (28 + 0x50) = some tC1c.playCount ∧
        ∃ lp, readU32 bufC1 (28 + 0x58) = some lp ∧ tC1c.lastPlayed = hfsToUnix 0 lp)) := by
  have h1 : parseMhit dbC1 (0 + 4) = some tC1u := by decide
  have h2 : parseTrackFromBuffer bufC1 0 28 0 = some tC1c := by decide
  exact ⟨h1, h2, c6_amended_offsets dbC1 bufC1 0 0 28 0 tC1u tC1c h1 h2⟩

set_option maxRecDepth 16384 in
/-- Claim C7 counterexample: the uncompressed-path mhod parser decodes the
title of `dbC1` as UTF-16LE even though the on-disk encoding-code field (at
mhod offset +24) is 0, and keeps the embedded NUL — refuting both the
encoding dispatch and the NUL stripping for this parser. -/
theorem c7_counterexample :
    parsemhod dbC1 4 44 t0C7 =
      some (48, { t0C7 with track := ⟨[Char.ofNat 65, Char.ofNat 0]⟩ }) ∧
    readU32 dbC1 68 = some 0 ∧
    (⟨[Char.ofNat 65, Char.ofNat 0]⟩ : String) ≠ stripNulls (utf8Decode [65, 0, 0, 0]) ∧
    (⟨[Char.ofNat 65, Char.ofNat 0]⟩ : String) = utf16leDecode [65, 0, 0, 0] ∧
    stripNulls (⟨[Char.ofNat 65, Char.ofNat 0]⟩ : String) ≠
      (⟨[Char.ofNat 65, Char.ofNat 0]⟩ : String) :=
  ⟨by decide, by decide, by decide, by decide, by decide⟩

/-- Claim C7 (amended): the compressed-path mhod parser dispatches on the
encoding code (1 means UTF-16LE, anything else UTF-8), strips NULs after
decoding, and rejects declared lengths outside (0, 10000) leaving the track
unchanged; the uncompressed-path parser never reads the encoding code,
always decodes UTF-16LE, does not strip NULs, and applies the same length
bound. -/
theorem c7_amended_strings
    (buf : List Nat) (t : Track) (mhodStart hsz tsz ty enc strLen : Nat)
    (hTag : tagAt buf mhodStart = mhodTag)
    (hH : readU32 buf (mhodStart + 4) = some hsz)
    (hT : readU32 buf (mhodStart + 8) = some tsz)
    (hTy : readU32 buf (mhodStart + 12) = some ty)
    (hB : ¬ mhodStart + hsz + 16 > buf.length)
    (hEnc : readU32 buf (mhodStart + hsz) = some enc)
    (hLen : readU32 buf (mhodStart + hsz + 4) = some strLen)
    (hOk : 0 < strLen ∧ strLen < 10000 ∧ mhodStart + hsz + 16 + strLen ≤ buf.length)
    (file : List Nat) (t' : Track) (s hszU tszU strLenU : Nat)
    (hU1 : readU32 file (s + hszU - 4 + 8) = some tszU)
    (hU2 : readU32 file (s + hszU - 4 + 12) = some 1)
    (hU3 : readU32 file (s + hszU - 4 + 28) = some strLenU)
    (hOkU : 0 < strLenU ∧ strLenU < 10000) :
    parseMhodFromBuffer buf mhodStart t = (tsz, setField t ty (stripNulls
      (if enc = 1 then utf16leDecode ((buf.drop (mhodStart + hsz + 16)).take strLen)
        else utf8Decode ((buf.drop (mhodStart + hsz + 16)).take strLen)))) ∧
    parsemhod file s hszU t' = some (tszU,
      { t' with track := utf16leDecode (readBytesPadded file (s + hszU - 4 + 40) strLenU) }) ∧
    (∀ (fileR : List Nat) (tR : Track) (sR hszR tszR tyR strLenR : Nat),
      readU32 fileR (sR + hszR - 4 + 8) = some tszR →
      readU32 fileR (sR + hszR - 4 + 12) = some tyR →
      (tyR = 1 ∨ tyR = 3 ∨ tyR = 4) →
      readU32 fileR (sR + hszR - 4 + 28) = some strLenR →
      ¬ (0 < strLenR ∧ strLenR < 10000) →
      parsemhod fileR sR hszR tR = some (tszR, tR)) ∧
    (∀ (bufR : List Nat) (tR : Track) (pR hszR tszR tyR encR strLenR : Nat),
      tagAt bufR pR = mhodTag →
      readU32 bufR (pR + 4) = some hszR →
      readU32 bufR (pR + 8) = some tszR →
      readU32 bufR (pR + 12) = some tyR →
      ¬ pR + hszR + 16 > bufR.length →
      readU32 bufR (pR + hszR) = some encR →
      readU32 bufR (pR + hszR + 4) = some strLenR →
      ¬ (0 < strLenR ∧ strLenR < 10000 ∧ pR + hszR + 16 + strLenR ≤ bufR.length) →
      parseMhodFromBuffer bufR pR tR = (tszR, tR)) := by
  refine ⟨?_, ?_, ?_, ?_⟩
  · unfold parseMhodFromBuffer
    rw [if_neg (not_not_intro hTag), hH, hT, hTy]
    dsimp only
    rw [if_neg hB, hEnc, hLen]
    dsimp only
    rw [if_pos hOk]
  · unfold parsemhod
    rw [hU1, hU2]
    dsimp only
    rw [if_pos (by simp), hU3]
    dsimp only
    rw [if_pos hOkU]
    rfl
  · intro fileR tR sR hszR tszR tyR strLenR r1 r2 r3 r4 r5
    unfold parsemhod
    rw [r1, r2]
    dsimp only
    rw [if_pos r3, r4]
    dsimp only
    rw [if_neg r5]
  · intro bufR tR pR hszR tszR tyR encR strLenR r1 r2 r3 r4 r5 r6 r7 r8
    unfold parseMhodFromBuffer
    rw [if_neg (not_not_intro r1), r2, r3, r4]
    dsimp only
    rw [if_neg r5, r6, r7]
    dsimp only
    rw [if_neg r8]

set_option maxRecDepth 16384 in
/-- Claim C7 witness: the amended string semantics evaluated on the concrete
mhod objects of `bufC1` (compressed path) and `dbC1` (uncompressed path). -/
theorem c7_amended_strings_witness :
    tagAt bufC1 120 = mhodTag ∧
    readU32 bufC1 (120 + 4) = some 24 ∧
    readU32 bufC1 (120 + 8) = some 42 ∧
    readU32 bufC1 (120 + 12) = some 1 ∧
    ¬ 120 + 24 + 16 > bufC1.length ∧
    readU32 bufC1 (120 + 24) = some 1 ∧
    readU32 bufC1 (120 + 24 + 4) = some 2 ∧
    (0 < 2 ∧ 2 < 10000 ∧ 120 + 24 + 16 + 2 ≤ bufC1.length) ∧
    readU32 dbC1 (4 + 44 - 4 + 8) = some 48 ∧
    readU32 dbC1 (4 + 44 - 4 + 12) = some 1 ∧
    readU32 dbC1 (4 + 44 - 4 + 28) = some 4 ∧
    (0 < 4 ∧ 4 < 10000) ∧
    parseMhodFromBuffer bufC1 120 t0C7 = (42, setField t0C7 1 (stripNulls
      (if 1 = 1 then utf16leDecode ((bufC1.drop (120 + 24 + 16)).take 2)
        else utf8Decode ((bufC1.drop (120 + 24 + 16)).take 2)))) ∧
    parsemhod dbC1 4 44 t0C7 = some (48,
      { t0C7 with track := utf16leDecode (readBytesPadded dbC1 (4 + 44 - 4 + 40) 4) }) := by
  have h := c7_amended_strings bufC1 t0C7 120 24 42 1 1 2
    (by decide) (by decide) (by decide) (by decide) (by decide) (by decide) (by decide)
    (by decide) dbC1 t0C7 4 44 48 4 (by decide) (by decide) (by decide) (by decide)
  exact ⟨by decide, by decide, by decide, by decide, by decide, by decide, by decide,
    by decide, by decide, by decide, by decide, by decide, h.1, h.2.1⟩

/-- Claim C8: the history assembler's output only contains tracks with a
positive play count and is sorted descending by last-played timestamp. -/
theorem c8_assembler (tl : List Track) :
    (∀ t, t ∈ assembleRecent tl → 0 < t.playCount) ∧
    List.Sorted (fun a b : Track => b.lastPlayed ≤ a.lastPlayed) (assembleRecent tl) := by
  constructor
  · intro t ht
    rw [assembleRecent, List.mem_mergeSort] at ht
    simpa using (List.mem_filter.mp ht).2
  · have htrans : ∀ a b c : Track, moreRecent a b → moreRecent b c → moreRecent a c := by
      intro a b c hab hbc
      simp only [moreRecent, decide_eq_true_eq] at *
      omega
    have htotal : ∀ a b : Track, moreRecent a b || moreRecent b a := by
      intro a b
      simp only [moreRecent, Bool.or_eq_true, decide_eq_true_eq]
      omega
    have h := @List.sorted_mergeSort Track moreRecent htrans htotal
      (tl.filter fun t => 0 < t.playCount)
    rw [assembleRecent]
    refine List.Pairwise.imp ?_ h
    intro a b hab
    simpa [moreRecent] using hab

/-- Claim C8 witness: a concrete mixed list — the zero-play track disappears
and the rest come out most recent first. -/
theorem c8_assembler_witness :
    (∀ t, t ∈ assembleRecent [⟨"p", "", "", 2, 10, 0, 1⟩, ⟨"q", "", "", 0, 99, 1, 1⟩,
      ⟨"r", "", "", 1, 50, 2, 1⟩] → 0 < t.playCount) ∧
    List.Sorted (fun a b : Track => b.lastPlayed ≤ a.lastPlayed)
      (assembleRecent [⟨"p", "", "", 2, 10, 0, 1⟩, ⟨"q", "", "", 0, 99, 1, 1⟩,
        ⟨"r", "", "", 1, 50, 2, 1⟩]) :=
  c8_assembler [⟨"p", "", "", 2, 10, 0, 1⟩, ⟨"q", "", "", 0, 99, 1, 1⟩,
    ⟨"r", "", "", 1, 50, 2, 1⟩]

/-- Claim C9: a track with zero (or absent, modeled as zero) play count
expands to exactly one event timestamped at its `lastPlayed` unchanged, every
track expands to at least one event, and the expander's output is never
shorter than its input. -/
theorem c9_expander_nonempty (tl : List Track) (t : Track) (h : t.playCount = 0) :
    expandTrack t = [{ t with playCount := 1 }] ∧
    (∀ u : Track, 1 ≤ (expandTrack u).length) ∧
    tl.length ≤ (expandTracksByPlayCount tl).length := by
  refine ⟨?_, expandTrack_length_pos, ?_⟩
  · rw [expandTrack, if_pos h]
    simp [List.range_succ]
  · induction tl with
    | nil => simp [expandTracksByPlayCount]
    | cons hd tlr ih =>
      have := expandTrack_length_pos hd
      simp only [expandTracksByPlayCount, List.flatMap_cons, List.length_append,
        List.length_cons]
      have ih' : tlr.length ≤ (expandTracksByPlayCount tlr).length := ih
      simp only [expandTracksByPlayCount] at ih'
      omega

/-- Claim C9 witness: a concrete track with play count 0 yields exactly one
event at its unchanged timestamp. -/
theorem c9_expander_nonempty_witness :
    tC9.playCount = 0 ∧
    expandTrack tC9 = [{ tC9 with playCount := 1 }] ∧
    [tC9].length ≤ (expandTracksByPlayCount [tC9]).length := by
  have h := c9_expander_nonempty [tC9] tC9 rfl
  exact ⟨rfl, h.1, h.2.2⟩

set_option maxRecDepth 32768 in
/-- Claim C10 counterexample: a 96-byte play-counts file declaring 100
entries but containing none (every entry read is past end of file, as
`readU32 pcFileC10 96 = none` shows) still overwrites the track with id 0 —
its play count becomes 100 (the stale entry-count bytes left in the reused
read buffer) and its last-played stamp `100 - 2082844800` — an update backed
by no in-file play-count entry, refuting the claim's "only on tracks matched
by a nonzero play-count entry". -/
theorem c10_counterexample :
    pcFileC10.length = 96 ∧
    readU32 pcFileC10 96 = none ∧
    numEntriesS pcFileC10 = 100 ∧
    parsePlayCountsS pcFileC10 0 [tC10] = [markPlayed tC10 100 (-2082844700)] :=
  ⟨by decide, by decide, by decide, by decide⟩

/-- Claim C10 (amended): play-counts correlation never adds or removes a
track, leaves every track's title, artist, album, length and sequence id
unchanged, and modifies only the play count and last-played fields, only on
a track whose sequence id equals the index of a processed entry position
whose play-count read returned a nonzero value; on a file long enough for
its declared entry count those values are exactly the file's entries (and
the exact model coincides with the in-bounds one), but on a truncated file
the reads past end of file return the reused buffer's stale bytes, so a
track can be overwritten with values backed by no in-file entry. -/
theorem c10_frame_amended (file : List Nat) (tz : Int) (tl : List Track) :
    (parsePlayCountsS file tz tl).length = tl.length ∧
    (∀ j, j < tl.length →
      ((parsePlayCountsS file tz tl).getD j default).track = (tl.getD j default).track ∧
      ((parsePlayCountsS file tz tl).getD j default).artist = (tl.getD j default).artist ∧
      ((parsePlayCountsS file tz tl).getD j default).album = (tl.getD j default).album ∧
      ((parsePlayCountsS file tz tl).getD j default).id = (tl.getD j default).id ∧
      ((parsePlayCountsS file tz tl).getD j default).length = (tl.getD j default).length ∧
      ((parsePlayCountsS file tz tl).getD j default = tl.getD j default ∨
        ∃ m pc lp, m + 1 < numEntriesS file ∧ 0 < pc ∧ (tl.getD j default).id = m ∧
          (parsePlayCountsS file tz tl).getD j default =
            markPlayed (tl.getD j default) pc lp)) ∧
    (16 ≤ file.length →
      (∀ m, m < numEntriesS file - 1 → 96 + m * entryLenS file + 8 ≤ file.length) →
      parsePlayCountsS file tz tl = parsePlayCounts file tz tl ∧
      ∀ j, j < tl.length →
        (parsePlayCountsS file tz tl).getD j default = tl.getD j default ∨
        ∃ m pc lpRaw, m + 1 < numEntriesS file ∧
          readU32 file (96 + m * entryLenS file) = some pc ∧ 0 < pc ∧
          (tl.getD j default).id = m ∧
          readU32 file (96 + m * entryLenS file + 4) = some lpRaw ∧
          (parsePlayCountsS file tz tl).getD j default =
            markPlayed (tl.getD j default) pc (pcConvert tz lpRaw)) := by
  obtain ⟨hl, hg⟩ := pcLoopS_frame file tz (entryLenS file) (numEntriesS file - 1) 0 96
    (readDword file 12 (readDword file 8 (List.replicate 4 0))) tl
  refine ⟨hl, ?_, ?_⟩
  · intro j hj
    rcases hg j hj with hL | ⟨m, pc, lp, h1, h2, h4, hid', heq⟩
    · rw [parsePlayCountsS, hL]
      exact ⟨rfl, rfl, rfl, rfl, rfl, Or.inl rfl⟩
    · rw [parsePlayCountsS, heq]
      exact ⟨rfl, rfl, rfl, rfl, rfl, Or.inr ⟨m, pc, lp, by omega, h4, hid', rfl⟩⟩
  · intro h16 hb
    have hEL : readU32 file 8 = some (entryLenS file) := by
      have h := u32Of_readDword file 8 (List.replicate 4 0) (by omega)
      rw [h]
      rfl
    have hNE : readU32 file 12 = some (numEntriesS file) := by
      have h := u32Of_readDword file 12 (readDword file 8 (List.replicate 4 0)) (by omega)
      rw [h]
      rfl
    have heqP : parsePlayCounts file tz tl =
        pcLoop file tz (entryLenS file) (numEntriesS file - 1) 0 96 tl := by
      unfold parsePlayCounts
      rw [hEL, hNE]
    have h960 : 96 + 0 * entryLenS file = 96 := by ring
    have hequiv := pcLoopS_eq_pcLoop file tz (entryLenS file) (numEntriesS file - 1) 0
      (readDword file 12 (readDword file 8 (List.replicate 4 0))) tl
      (fun m h1 h2 => hb m (by omega))
    rw [h960] at hequiv
    have hmain : parsePlayCountsS file tz tl = parsePlayCounts file tz tl := by
      rw [parsePlayCountsS, heqP]
      exact hequiv
    refine ⟨hmain, ?_⟩
    obtain ⟨hfl, hfg⟩ := pcLoop_frame file tz (entryLenS file) (numEntriesS file - 1) 0 tl
    rw [h960] at hfg
    intro j hj
    have hres : parsePlayCountsS file tz tl =
        pcLoop file tz (entryLenS file) (numEntriesS file - 1) 0 96 tl := by
      rw [hmain, heqP]
    rcases hfg j hj with hL | ⟨m, pc, lpRaw, h1, h2, h3, h4, hid', h5, heq⟩
    · rw [hres]
      exact Or.inl hL
    · rw [hres]
      exact Or.inr ⟨m, pc, lpRaw, by omega, h3, h4, hid', h5, heq⟩

set_option maxRecDepth 16384 in
/-- Claim C10 witness: the amended frame property evaluated on a concrete
in-bounds one-track correlation, where the exact and in-bounds models agree. -/
theorem c10_frame_amended_witness :
    0 < [tC5].length ∧ 16 ≤ pcFileC5.length ∧
    (∀ m, m < numEntriesS pcFileC5 - 1 →
      96 + m * entryLenS pcFileC5 + 8 ≤ pcFileC5.length) ∧
    (parsePlayCountsS pcFileC5 0 [tC5]).length = [tC5].length ∧
    ((parsePlayCountsS pcFileC5 0 [tC5]).getD 0 default).track = tC5.track ∧
    ((parsePlayCountsS pcFileC5 0 [tC5]).getD 0 default).id = tC5.id ∧
    parsePlayCountsS pcFileC5 0 [tC5] = parsePlayCounts pcFileC5 0 [tC5] := by
  have h := c10_frame_amended pcFileC5 0 [tC5]
  have hj := h.2.1 0 (by decide)
  have hio := h.2.2 (by decide) (by decide)
  exact ⟨by decide, by decide, by decide, h.1, hj.1, hj.2.2.2.1, hio.1⟩
